import Mathlib

/-!
Shallow embedding of `vagrant/tournament/tournament.py`, a Swiss-system tournament
module backed by two tables (`players`, `matches`) and a derived `standings` view.
Database state is modelled as lists of rows in insertion order; the SQL statements
executed by each Python function are modelled as pure functions on that state.
-/

namespace Tournament

/-- A row of the `players` table: serial id and registered name. -/
structure Player where
  id : Nat
  name : String
deriving DecidableEq, Repr

/-- A row of the `matches` table: `winner_id` and `loser_id` columns. -/
structure MatchRec where
  winner_id : Nat
  loser_id : Nat
deriving DecidableEq, Repr

/-- Database state: the two tables, rows kept in insertion order. -/
structure DB where
  players : List Player
  «matches» : List MatchRec
deriving DecidableEq, Repr

/-- A row of the `standings` view: `(id, name, wins, matches)`. -/
structure StandingsRow where
  id : Nat
  name : String
  wins : Nat
  «matches» : Nat
deriving DecidableEq, Repr

/-- Modelled from the spec: the `wins` column of the `standings` view (the view's SQL
definition, `tournament.sql`, is not among the provided sources) — "wins: count of
matches where player is winner". -/
def winCount (ms : List MatchRec) (pid : Nat) : Nat :=
  (ms.filter (fun m => m.winner_id == pid)).length

/-- Modelled from the spec: the `matches` column of the `standings` view — "matches:
total matches played (as winner or loser)". -/
def matchCount (ms : List MatchRec) (pid : Nat) : Nat :=
  (ms.filter (fun m => m.winner_id == pid || m.loser_id == pid)).length

/-- The `standings` row derived for one registered player. -/
def rowFor (ms : List MatchRec) (p : Player) : StandingsRow :=
  ⟨p.id, p.name, winCount ms p.id, matchCount ms p.id⟩

/-- Ranking relation of the standings: `a` may precede `b` when `a` has at least as
many wins, i.e. descending order of wins. -/
def winsGE (a b : StandingsRow) : Prop := b.wins ≤ a.wins

instance : DecidableRel winsGE := fun a b => Nat.decLe b.wins a.wins

instance : IsTotal StandingsRow winsGE := ⟨fun a b => Nat.le_total b.wins a.wins⟩

instance : IsTrans StandingsRow winsGE := ⟨fun _ _ _ h1 h2 => le_trans h2 h1⟩

/-- Modelled from the spec: the `standings` view itself (its SQL definition is not
among the provided sources) — one row per registered player, "ranked by descending
wins", ties deterministic and "tied back to insertion/id order", hence a stable sort
of the roster in insertion order. -/
def standingsView (db : DB) : List StandingsRow :=
  List.insertionSort winsGE (db.players.map (rowFor db.matches))

/-- `deleteMatches()`: `delete from matches;`. -/
def deleteMatches (db : DB) : DB :=
  { db with «matches» := [] }

/-- `deletePlayers()`: `delete from players;`. -/
def deletePlayers (db : DB) : DB :=
  { db with players := [] }

/-- `countPlayers()`: `select count(id) from players;`. -/
def countPlayers (db : DB) : Nat :=
  db.players.length

/-- The default `ALLOWED_TAGS` list of the external `bleach` library: tags kept
verbatim by `bleach.clean` with default arguments. -/
def bleachAllowedTags : List String :=
  ["a", "abbr", "acronym", "b", "blockquote", "code", "em", "i", "li", "ol",
   "strong", "ul"]

/-- Split a character list into its leading run of letters and the remainder. -/
def takeLetters : List Char → List Char × List Char
  | [] => ([], [])
  | c :: cs =>
    if c.isAlpha then
      let (ls, rest) := takeLetters cs
      (c :: ls, rest)
    else ([], c :: cs)

/-- Recognise an allowed HTML tag at the head of `cs`, the text following a `<`:
an optional `/`, a tag name from `bleachAllowedTags`, and a closing `>`. Returns
the tag's verbatim text (with its brackets) and the remainder after the `>`. -/
def matchAllowedTag (cs : List Char) : Option (List Char × List Char) :=
  let (isClose, body) :=
    match cs with
    | '/' :: rest => (true, rest)
    | _ => (false, cs)
  let (nm, rest) := takeLetters body
  match rest with
  | '>' :: rest2 =>
    if bleachAllowedTags.contains (String.mk nm) then
      some ((if isClose then ['<', '/'] else ['<']) ++ nm ++ ['>'], rest2)
    else none
  | _ => none

/-- One-pass scan behind `bleachClean`; the fuel only bounds the recursion and any
fuel of at least the input length leaves the result unchanged, since every step
consumes at least one character. -/
def cleanWithFuel : Nat → List Char → List Char
  | 0, cs => cs
  | _ + 1, [] => []
  | fuel + 1, c :: cs =>
    if c = '<' then
      match matchAllowedTag cs with
      | some (tag, rest) => tag ++ cleanWithFuel fuel rest
      | none => "&lt;".toList ++ cleanWithFuel fuel cs
    else if c = '&' then "&amp;".toList ++ cleanWithFuel fuel cs
    else if c = '>' then "&gt;".toList ++ cleanWithFuel fuel cs
    else c :: cleanWithFuel fuel cs

/-- Model of the external `bleach.clean` library call with default arguments, as
used by `registerPlayer`: markup whose tag is in the default `ALLOWED_TAGS` list is
kept verbatim, while disallowed tags and bare `&`, `<`, `>` are escaped to HTML
entities. The model covers names built from plain text and attribute-free lowercase
tags, without pre-existing HTML entities. -/
def bleachClean (s : String) : String :=
  String.mk (cleanWithFuel s.toList.length s.toList)

/-- The serial id the database schema assigns to a newly inserted player: a fresh id,
one larger than every existing id. -/
def nextId (db : DB) : Nat :=
  (db.players.map (fun p => p.id + 1)).foldr Nat.max 0

/-- `registerPlayer(name)`: `name = bleach.clean(name)` followed by
`insert into players (name) values (%s);` with a schema-assigned serial id. -/
def registerPlayer (name : String) (db : DB) : DB :=
  { db with players := db.players ++ [⟨nextId db, bleachClean name⟩] }

/-- `playerStandings()`: `select * from standings;` (the view is already ordered). -/
def playerStandings (db : DB) : List StandingsRow :=
  standingsView db

/-- `reportMatch(winner, loser)`: `insert into matches (winner_id, loser_id)`. -/
def reportMatch (winner loser : Nat) (db : DB) : DB :=
  { db with «matches» := db.matches ++ [⟨winner, loser⟩] }

/-- Errors the pairing computation can surface. `indexError` models the Python
`IndexError` raised by an out-of-range list subscript; `invalidRosterError` is the
roster-specific error condition named by the specification (never raised by the
code itself). -/
inductive PairingError where
  | indexError
  | invalidRosterError
deriving DecidableEq, Repr

/-- One output pairing `(id1, name1, id2, name2)`. -/
abbrev Pairing := Nat × String × Nat × String

/-- The loop of `swissPairings` (lines 119-124): for `counter` in steps of two, pair
`standings[counter]` with `standings[counter + 1]`. On an odd-length list the final
subscript `standings[counter + 1]` is out of range and Python raises `IndexError`,
modelled by the `error` result. -/
def pairRows : List StandingsRow → Except PairingError (List Pairing)
  | [] => .ok []
  | [_] => .error .indexError
  | p1 :: p2 :: rest =>
    match pairRows rest with
    | .ok tail => .ok ((p1.id, p1.name, p2.id, p2.name) :: tail)
    | .error e => .error e

/-- The result set of `select id, name, wins, matches from standings order by wins
desc;` used by `swissPairings`: the view rows, stably re-ordered by descending wins. -/
def fetchedStandings (db : DB) : List StandingsRow :=
  List.insertionSort winsGE (standingsView db)

/-- `swissPairings()`: fetch the standings ordered by descending wins and run the
pairing loop over the result. -/
def swissPairings (db : DB) : Except PairingError (List Pairing) :=
  pairRows (fetchedStandings db)

/-- The player ids mentioned by a pairing list, in output order. -/
def pairingIds : List Pairing → List Nat
  | [] => []
  | q :: qs => q.1 :: q.2.2.1 :: pairingIds qs

/-! ### Helper lemmas -/



theorem winCount_le_matchCount (ms : List MatchRec) (pid : Nat) :
    winCount ms pid ≤ matchCount ms pid := by
  induction ms with
  | nil => exact Nat.le_refl 0
  | cons m ms ih =>
    simp only [winCount, matchCount, List.filter_cons] at *
    cases hw : (m.winner_id == pid) <;> cases hl : (m.loser_id == pid) <;>
      simp [hw, hl] <;> omega

theorem standingsView_perm (db : DB) :
    List.Perm (standingsView db) (db.players.map (rowFor db.matches)) :=
  List.perm_insertionSort winsGE _

theorem fetchedStandings_perm (db : DB) :
    List.Perm (fetchedStandings db) (db.players.map (rowFor db.matches)) :=
  (List.perm_insertionSort winsGE _).trans (standingsView_perm db)

theorem map_id_rowFor (db : DB) :
    (db.players.map (rowFor db.matches)).map StandingsRow.id = db.players.map Player.id := by
  simp [List.map_map, Function.comp, rowFor]

theorem fetchedStandings_length (db : DB) :
    (fetchedStandings db).length = db.players.length := by
  rw [(fetchedStandings_perm db).length_eq, List.length_map]

theorem fetchedStandings_ids_perm (db : DB) :
    List.Perm ((fetchedStandings db).map StandingsRow.id) (db.players.map Player.id) := by
  rw [← map_id_rowFor db]
  exact (fetchedStandings_perm db).map StandingsRow.id

theorem pairRows_ok_of_even :
    ∀ (l : List StandingsRow), l.length % 2 = 0 → ∃ ps, pairRows l = .ok ps
  | [], _ => ⟨[], rfl⟩
  | [_], h => by simp at h
  | p1 :: p2 :: rest, h => by
    have h2 : rest.length % 2 = 0 := by simp only [List.length_cons] at h; omega
    obtain ⟨ps, hps⟩ := pairRows_ok_of_even rest h2
    exact ⟨(p1.id, p1.name, p2.id, p2.name) :: ps, by simp [pairRows, hps]⟩

theorem pairRows_odd :
    ∀ (l : List StandingsRow), l.length % 2 = 1 → pairRows l = .error .indexError
  | [], h => by simp at h
  | [_], _ => rfl
  | p1 :: p2 :: rest, h => by
    have h2 : rest.length % 2 = 1 := by simp only [List.length_cons] at h; omega
    simp [pairRows, pairRows_odd rest h2]

theorem pairRows_length :
    ∀ (l : List StandingsRow) (ps : List Pairing),
      pairRows l = .ok ps → ps.length = l.length / 2
  | [], ps, h => by
    simp only [pairRows, Except.ok.injEq] at h
    subst h; rfl
  | [_], ps, h => by simp [pairRows] at h
  | p1 :: p2 :: rest, ps, h => by
    simp only [pairRows] at h
    cases hrec : pairRows rest with
    | ok tail =>
      rw [hrec] at h
      simp only [Except.ok.injEq] at h
      subst h
      have ih := pairRows_length rest tail hrec
      simp only [List.length_cons, ih]
      omega
    | error e => rw [hrec] at h; cases h

theorem pairRows_ids :
    ∀ (l : List StandingsRow) (ps : List Pairing),
      pairRows l = .ok ps → pairingIds ps = l.map StandingsRow.id
  | [], ps, h => by
    simp only [pairRows, Except.ok.injEq] at h
    subst h; rfl
  | [_], ps, h => by simp [pairRows] at h
  | p1 :: p2 :: rest, ps, h => by
    simp only [pairRows] at h
    cases hrec : pairRows rest with
    | ok tail =>
      rw [hrec] at h
      simp only [Except.ok.injEq] at h
      subst h
      simp [pairingIds, pairRows_ids rest tail hrec]
    | error e => rw [hrec] at h; cases h

theorem pairRows_ne_self :
    ∀ (l : List StandingsRow) (ps : List Pairing),
      pairRows l = .ok ps → (l.map StandingsRow.id).Nodup →
      ∀ q ∈ ps, q.1 ≠ q.2.2.1
  | [], ps, h, _ => by
    simp only [pairRows, Except.ok.injEq] at h
    subst h; intro q hq; cases hq
  | [_], ps, h, _ => by simp [pairRows] at h
  | p1 :: p2 :: rest, ps, h, hnd => by
    simp only [pairRows] at h
    cases hrec : pairRows rest with
    | ok tail =>
      rw [hrec] at h
      simp only [Except.ok.injEq] at h
      subst h
      simp only [List.map_cons, List.nodup_cons, List.mem_cons, List.mem_map] at hnd
      intro q hq
      rcases List.mem_cons.mp hq with hq | hq
      · subst hq
        intro hcontra
        exact hnd.1 (Or.inl hcontra)
      · exact pairRows_ne_self rest tail hrec hnd.2.2 q hq
    | error e => rw [hrec] at h; cases h

theorem pairRows_get :
    ∀ (l : List StandingsRow) (ps : List Pairing),
      pairRows l = .ok ps → ∀ k, k < ps.length →
      ∃ r1 r2, l[2 * k]? = some r1 ∧ l[2 * k + 1]? = some r2 ∧
        ps[k]? = some (r1.id, r1.name, r2.id, r2.name)
  | [], ps, h => by
    simp only [pairRows, Except.ok.injEq] at h
    subst h; intro k hk; cases hk
  | [_], ps, h => by simp [pairRows] at h
  | p1 :: p2 :: rest, ps, h => by
    simp only [pairRows] at h
    cases hrec : pairRows rest with
    | ok tail =>
      rw [hrec] at h
      simp only [Except.ok.injEq] at h
      subst h
      intro k hk
      cases k with
      | zero => exact ⟨p1, p2, by simp, by simp, by simp⟩
      | succ k =>
        have hk2 : k < tail.length := by
          simp only [List.length_cons] at hk; omega
        obtain ⟨r1, r2, h1, h2, h3⟩ := pairRows_get rest tail hrec k hk2
        refine ⟨r1, r2, ?_, ?_, ?_⟩
        · have : 2 * (k + 1) = 2 * k + 1 + 1 := by omega
          rw [this, List.getElem?_cons_succ, List.getElem?_cons_succ]
          exact h1
        · have : 2 * (k + 1) + 1 = 2 * k + 1 + 1 + 1 := by omega
          rw [this, List.getElem?_cons_succ, List.getElem?_cons_succ]
          exact h2
        · rw [List.getElem?_cons_succ]
          exact h3
    | error e => rw [hrec] at h; cases h

/-! ### Claims -/

/-- C1: for every roster of even size (with the data model's unique ids) and every
match history, `swissPairings` succeeds and returns exactly |R|/2 pairings, every
player id of the roster appears in exactly one pairing slot, and no player is paired
with themselves. -/
theorem c1_swissPairings_even_covers (db : DB)
    (heven : db.players.length % 2 = 0)
    (hnodup : (db.players.map Player.id).Nodup) :
    ∃ ps, swissPairings db = .ok ps ∧
      ps.length = db.players.length / 2 ∧
      (∀ pl ∈ db.players, (pairingIds ps).count pl.id = 1) ∧
      ∀ q ∈ ps, q.1 ≠ q.2.2.1 := by
  obtain ⟨ps, hps⟩ := pairRows_ok_of_even (fetchedStandings db)
    (by rw [fetchedStandings_length]; exact heven)
  refine ⟨ps, hps, ?_, ?_, ?_⟩
  · rw [pairRows_length _ _ hps, fetchedStandings_length]
  · intro pl hpl
    rw [pairRows_ids _ _ hps, (fetchedStandings_ids_perm db).count_eq]
    exact List.count_eq_one_of_mem hnodup (List.mem_map_of_mem Player.id hpl)
  · exact pairRows_ne_self _ _ hps ((fetchedStandings_ids_perm db).nodup_iff.mpr hnodup)

/-- Witness for C1: a four-player roster with two recorded matches. -/
theorem c1_witness :
    ∃ ps,
      swissPairings ⟨[⟨1, "A"⟩, ⟨2, "B"⟩, ⟨3, "C"⟩, ⟨4, "D"⟩], [⟨1, 2⟩, ⟨3, 4⟩]⟩ = .ok ps ∧
      ps.length = 2 ∧
      (∀ pl ∈ ([⟨1, "A"⟩, ⟨2, "B"⟩, ⟨3, "C"⟩, ⟨4, "D"⟩] : List Player),
        (pairingIds ps).count pl.id = 1) ∧
      ∀ q ∈ ps, q.1 ≠ q.2.2.1 :=
  c1_swissPairings_even_covers ⟨[⟨1, "A"⟩, ⟨2, "B"⟩, ⟨3, "C"⟩, ⟨4, "D"⟩], [⟨1, 2⟩, ⟨3, 4⟩]⟩
    (by decide) (by decide)

/-- C2 counterexample: for the one-player roster the pairing computation does not
surface the roster-specific `invalidRosterError` the claim names; it stops with the
generic out-of-range `indexError` of the final subscript. -/
theorem c2_counterexample :
    countPlayers ⟨[⟨1, "X"⟩], []⟩ % 2 = 1 ∧
    swissPairings ⟨[⟨1, "X"⟩], []⟩ = .error .indexError ∧
    swissPairings ⟨[⟨1, "X"⟩], []⟩ ≠ .error .invalidRosterError := by
  refine ⟨rfl, rfl, fun h => ?_⟩
  rw [show swissPairings ⟨[⟨1, "X"⟩], []⟩ = .error .indexError from rfl] at h
  simp at h

/-- C2 amended: for every roster of odd size the pairing computation fails — no
player is silently dropped and no pairing list is returned — but the failure is the
generic `IndexError` of an out-of-range list subscript, not a roster-specific
`InvalidRosterError`-type condition. -/
theorem c2_swissPairings_odd_indexError (db : DB)
    (hodd : db.players.length % 2 = 1) :
    swissPairings db = .error .indexError :=
  pairRows_odd _ (by rw [fetchedStandings_length]; exact hodd)

/-- Witness for the amended C2: a one-player roster. -/
theorem c2_witness :
    swissPairings ⟨[⟨1, "X"⟩], []⟩ = .error .indexError :=
  c2_swissPairings_odd_indexError ⟨[⟨1, "X"⟩], []⟩ (by decide)

/-- C3: on every even-length standings sequence ranked by descending wins, the
pairing loop succeeds and its k-th output pairing consists of the rows at positions
2k and 2k+1 of the input (ranks 2k+1 and 2k+2), so the pairings appear in
descending-rank order of the first-listed player. -/
theorem c3_pairRows_consecutive (l : List StandingsRow)
    (_hsorted : List.Pairwise (fun a b => b.wins ≤ a.wins) l)
    (heven : l.length % 2 = 0) :
    ∃ ps, pairRows l = .ok ps ∧ ∀ k, k < ps.length →
      ∃ r1 r2, l[2 * k]? = some r1 ∧ l[2 * k + 1]? = some r2 ∧
        ps[k]? = some (r1.id, r1.name, r2.id, r2.name) := by
  obtain ⟨ps, hps⟩ := pairRows_ok_of_even l heven
  exact ⟨ps, hps, pairRows_get l ps hps⟩

/-- Witness for C3: a four-row standings sequence with descending wins. -/
theorem c3_witness :
    ∃ ps, pairRows [⟨1, "A", 3, 3⟩, ⟨2, "B", 2, 3⟩, ⟨3, "C", 1, 3⟩, ⟨4, "D", 0, 3⟩] = .ok ps ∧
      ∀ k, k < ps.length →
      ∃ r1 r2,
        ([⟨1, "A", 3, 3⟩, ⟨2, "B", 2, 3⟩, ⟨3, "C", 1, 3⟩,
          (⟨4, "D", 0, 3⟩ : StandingsRow)])[2 * k]? = some r1 ∧
        ([⟨1, "A", 3, 3⟩, ⟨2, "B", 2, 3⟩, ⟨3, "C", 1, 3⟩,
          (⟨4, "D", 0, 3⟩ : StandingsRow)])[2 * k + 1]? = some r2 ∧
        ps[k]? = some (r1.id, r1.name, r2.id, r2.name) :=
  c3_pairRows_consecutive _ (by decide) (by decide)

/-- C4: `playerStandings` returns one standings row per registered player, ordered
by descending wins, and every player with zero matches played appears with wins = 0
and matches = 0. -/
theorem c4_playerStandings_spec (db : DB) :
    (playerStandings db).length = db.players.length ∧
    List.Pairwise (fun a b => b.wins ≤ a.wins) (playerStandings db) ∧
    ∀ pl ∈ db.players, matchCount db.matches pl.id = 0 →
      (⟨pl.id, pl.name, 0, 0⟩ : StandingsRow) ∈ playerStandings db := by
  simp only [playerStandings]
  refine ⟨?_, ?_, ?_⟩
  · rw [(standingsView_perm db).length_eq, List.length_map]
  · exact List.sorted_insertionSort winsGE _
  · intro pl hpl hm
    have hw : winCount db.matches pl.id = 0 :=
      Nat.le_zero.mp (hm ▸ winCount_le_matchCount db.matches pl.id)
    have hmem : rowFor db.matches pl ∈ db.players.map (rowFor db.matches) :=
      List.mem_map_of_mem _ hpl
    have hrow : rowFor db.matches pl = ⟨pl.id, pl.name, 0, 0⟩ := by
      simp [rowFor, hw, hm]
    rw [← hrow]
    exact (standingsView_perm db).mem_iff.mpr hmem

/-- Witness for C4: a three-player roster where player 3 has played no match. -/
theorem c4_witness :
    (⟨3, "C", 0, 0⟩ : StandingsRow) ∈
      playerStandings ⟨[⟨1, "A"⟩, ⟨2, "B"⟩, ⟨3, "C"⟩], [⟨1, 2⟩]⟩ :=
  (c4_playerStandings_spec ⟨[⟨1, "A"⟩, ⟨2, "B"⟩, ⟨3, "C"⟩], [⟨1, 2⟩]⟩).2.2
    ⟨3, "C"⟩ (by decide) (by decide)

/-- C5: for an empty roster, whatever the match table holds, the standings are the
empty sequence and the pairing computation returns the empty pairing list rather
than an error. -/
theorem c5_empty_roster (db : DB) (h : db.players = []) :
    playerStandings db = [] ∧ swissPairings db = .ok [] := by
  obtain ⟨ps, ms⟩ := db
  have h2 : ps = [] := h
  subst h2
  exact ⟨rfl, rfl⟩

/-- Witness for C5: an empty roster alongside a stale match row. -/
theorem c5_witness :
    playerStandings ⟨[], [⟨1, 2⟩]⟩ = [] ∧ swissPairings ⟨[], [⟨1, 2⟩]⟩ = .ok [] :=
  c5_empty_roster ⟨[], [⟨1, 2⟩]⟩ rfl

/-- C6: the standings computation is deterministic — two database states holding the
same roster and the same match history produce identical standings sequences,
including the relative order of players with equal win counts. -/
theorem c6_playerStandings_deterministic (db1 db2 : DB)
    (hp : db1.players = db2.players) (hm : db1.matches = db2.matches) :
    playerStandings db1 = playerStandings db2 := by
  obtain ⟨ps1, ms1⟩ := db1
  obtain ⟨ps2, ms2⟩ := db2
  have hp2 : ps1 = ps2 := hp
  have hm2 : ms1 = ms2 := hm
  subst hp2
  subst hm2
  rfl

/-- Witness for C6: two identical snapshots with an all-tied roster. -/
theorem c6_witness :
    playerStandings ⟨[⟨1, "A"⟩, ⟨2, "B"⟩], [⟨1, 2⟩, ⟨2, 1⟩]⟩ =
      playerStandings ⟨[⟨1, "A"⟩, ⟨2, "B"⟩], [⟨1, 2⟩, ⟨2, 1⟩]⟩ :=
  c6_playerStandings_deterministic ⟨[⟨1, "A"⟩, ⟨2, "B"⟩], [⟨1, 2⟩, ⟨2, 1⟩]⟩
    ⟨[⟨1, "A"⟩, ⟨2, "B"⟩], [⟨1, 2⟩, ⟨2, 1⟩]⟩ rfl rfl

/-- C7: every standings row satisfies 0 ≤ wins ≤ matches. -/
theorem c7_wins_le_matches (db : DB) :
    ∀ r ∈ playerStandings db, 0 ≤ r.wins ∧ r.wins ≤ r.matches := by
  intro r hr
  have hr2 : r ∈ db.players.map (rowFor db.matches) :=
    (standingsView_perm db).mem_iff.mp hr
  obtain ⟨pl, _, rfl⟩ := List.mem_map.mp hr2
  exact ⟨Nat.zero_le _, winCount_le_matchCount db.matches pl.id⟩

/-- Witness for C7: the winner's row of a one-match database. -/
theorem c7_witness :
    0 ≤ (⟨1, "A", 1, 1⟩ : StandingsRow).wins ∧
    (⟨1, "A", 1, 1⟩ : StandingsRow).wins ≤ (⟨1, "A", 1, 1⟩ : StandingsRow).matches :=
  c7_wins_le_matches ⟨[⟨1, "A"⟩, ⟨2, "B"⟩], [⟨1, 2⟩]⟩ ⟨1, "A", 1, 1⟩ (by decide)

theorem winCount_cons (m : MatchRec) (ms : List MatchRec) (pid : Nat) :
    winCount (m :: ms) pid = (if m.winner_id == pid then 1 else 0) + winCount ms pid := by
  simp only [winCount, List.filter_cons]
  cases h : (m.winner_id == pid)
  · simp [h]
  · simp [h]
    omega

theorem sum_map_add (ps : List Player) (f g : Player → Nat) :
    (ps.map (fun p => f p + g p)).sum = (ps.map f).sum + (ps.map g).sum := by
  induction ps with
  | nil => rfl
  | cons p ps ih =>
    simp only [List.map_cons, List.sum_cons, ih]
    omega

theorem sum_ite_count (ps : List Player) (w : Nat) :
    (ps.map (fun p => if w == p.id then 1 else 0)).sum = (ps.map Player.id).count w := by
  induction ps with
  | nil => rfl
  | cons p ps ih =>
    simp only [List.map_cons, List.sum_cons, List.count_cons, ih]
    by_cases h : w = p.id
    · subst h
      simp
      omega
    · simp [h, Ne.symm h]

theorem sum_winCount (ps : List Player) (hnd : (ps.map Player.id).Nodup) :
    ∀ ms : List MatchRec, (∀ m ∈ ms, m.winner_id ∈ ps.map Player.id) →
      (ps.map (fun p => winCount ms p.id)).sum = ms.length := by
  intro ms
  induction ms with
  | nil =>
    intro _
    simp [winCount]
  | cons m ms ih =>
    intro hv
    have hmem : m.winner_id ∈ ps.map Player.id := hv m (List.mem_cons_self m ms)
    have hv2 : ∀ m2 ∈ ms, m2.winner_id ∈ ps.map Player.id :=
      fun m2 h2 => hv m2 (List.mem_cons_of_mem m h2)
    calc (ps.map (fun p => winCount (m :: ms) p.id)).sum
        = (ps.map (fun p =>
            (if m.winner_id == p.id then 1 else 0) + winCount ms p.id)).sum := by
          congr 1
          exact List.map_congr_left (fun p _ => winCount_cons m ms p.id)
      _ = (ps.map (fun p => if m.winner_id == p.id then 1 else 0)).sum
            + (ps.map (fun p => winCount ms p.id)).sum := sum_map_add ps _ _
      _ = (ps.map Player.id).count m.winner_id + ms.length := by
          rw [sum_ite_count, ih hv2]
      _ = (m :: ms).length := by
          rw [List.count_eq_one_of_mem hnd hmem, List.length_cons]
          omega

/-- C8: when every recorded match names a registered winner (referential integrity,
which the spec assigns to the store), the wins column of the standings sums to the
total number of recorded matches. -/
theorem c8_sum_wins_eq_matches (db : DB)
    (hnd : (db.players.map Player.id).Nodup)
    (hv : ∀ m ∈ db.matches, m.winner_id ∈ db.players.map Player.id) :
    ((playerStandings db).map StandingsRow.wins).sum = db.matches.length := by
  have hperm :
      List.Perm ((playerStandings db).map StandingsRow.wins)
        ((db.players.map (rowFor db.matches)).map StandingsRow.wins) :=
    (standingsView_perm db).map StandingsRow.wins
  rw [hperm.sum_eq, List.map_map]
  have hcomp : (StandingsRow.wins ∘ rowFor db.matches)
      = fun p => winCount db.matches p.id := rfl
  rw [hcomp]
  exact sum_winCount db.players hnd db.matches hv

/-- Witness for C8: three players, three matches, each won by a registered player. -/
theorem c8_witness :
    ((playerStandings ⟨[⟨1, "A"⟩, ⟨2, "B"⟩, ⟨3, "C"⟩],
        [⟨1, 2⟩, ⟨2, 3⟩, ⟨1, 3⟩]⟩).map StandingsRow.wins).sum = 3 :=
  c8_sum_wins_eq_matches ⟨[⟨1, "A"⟩, ⟨2, "B"⟩, ⟨3, "C"⟩], [⟨1, 2⟩, ⟨2, 3⟩, ⟨1, 3⟩]⟩
    (by decide) (by decide)

/-- C9: `registerPlayer` stores the sanitized `bleach.clean` form of its argument,
not the argument itself; on a name containing disallowed HTML markup (a `script`
tag) the stored name differs from the name passed in, while markup from the default
allowed list (a `b` tag) passes through unchanged. -/
theorem c9_registerPlayer_sanitizes (db : DB) (s : String) :
    (∃ p, (registerPlayer s db).players = db.players ++ [p] ∧ p.name = bleachClean s) ∧
    bleachClean "<script>x</script>" ≠ "<script>x</script>" ∧
    bleachClean "<b>x</b>" = "<b>x</b>" :=
  ⟨⟨⟨nextId db, bleachClean s⟩, rfl, rfl⟩, by decide, by decide⟩

/-- C10: `deleteMatches` clears the match table and leaves the roster untouched —
the player count is unchanged and every previously registered player still appears
in the standings, now with wins = 0 and matches = 0. -/
theorem c10_deleteMatches_frame (db : DB) :
    countPlayers (deleteMatches db) = countPlayers db ∧
    (deleteMatches db).matches = [] ∧
    (deleteMatches db).players = db.players ∧
    ∀ pl ∈ db.players,
      (⟨pl.id, pl.name, 0, 0⟩ : StandingsRow) ∈ playerStandings (deleteMatches db) := by
  refine ⟨rfl, rfl, rfl, ?_⟩
  intro pl hpl
  have hmem : rowFor ([] : List MatchRec) pl ∈ db.players.map (rowFor []) :=
    List.mem_map_of_mem _ hpl
  exact (standingsView_perm (deleteMatches db)).mem_iff.mpr hmem

/-- Witness for C10: after clearing matches, the former loser reappears at 0-0. -/
theorem c10_witness :
    (⟨2, "B", 0, 0⟩ : StandingsRow) ∈
      playerStandings (deleteMatches ⟨[⟨1, "A"⟩, ⟨2, "B"⟩], [⟨1, 2⟩]⟩) :=
  (c10_deleteMatches_frame ⟨[⟨1, "A"⟩, ⟨2, "B"⟩], [⟨1, 2⟩]⟩).2.2.2 ⟨2, "B"⟩ (by decide)

end Tournament
